import Mathlib

/-!
Shallow embedding of the Voxeldoro voxel simulation engine.

The definitions below are translated from the repository sources:
* `VoxelEngine` (services/VoxelEngine.ts): the state machine, the rebuild
  assignment algorithm, `setProgress`, `finishRebuild`, `loadInitialModel`,
  `createVoxels` and the per-frame physics step of `animate`.
* `normalizeVoxels` (App.tsx): the pure input normalizer.

Numbers that are IEEE doubles in the source are modelled as rationals; the
quantities involved (integer grid coordinates, 1/255-grained colour channels,
fixed decimal constants) are exactly representable, and every claim proved
here is stated over that model.  Rendering, camera and DOM objects carry no
simulation state and are omitted, as are the `onStateChange`/`onCountChange`
notification callbacks (they receive values but never feed back into the
engine state).
-/

namespace Voxeldoro

/-- One voxel of model data: grid position and 24-bit colour
(types.ts `VoxelData`). -/
structure VoxelData where
  x : ℚ
  y : ℚ
  z : ℚ
  color : ℕ
deriving Repr, DecidableEq

/-- Mutable per-voxel runtime state (types.ts `SimulationVoxel`): position,
velocity, rotation, angular velocity, colour (kept as the 24-bit value the
source writes with `setHex`) and the stable slot id. -/
structure SimulationVoxel where
  id : ℕ
  x : ℚ
  y : ℚ
  z : ℚ
  color : ℕ
  vx : ℚ
  vy : ℚ
  vz : ℚ
  rx : ℚ
  ry : ℚ
  rz : ℚ
  rvx : ℚ
  rvy : ℚ
  rvz : ℚ
deriving Repr, DecidableEq

/-- Rebuild destination for one voxel slot (types.ts `RebuildTarget`).  The
source leaves `isRubble` undefined (falsy) on non-rubble entries; that is
modelled as `false`. -/
structure RebuildTarget where
  x : ℚ
  y : ℚ
  z : ℚ
  delay : ℚ
  isRubble : Bool
deriving Repr, DecidableEq

/-- The three-state lifecycle (types.ts `AppState`). -/
inductive AppState where
  | STABLE
  | DISMANTLING
  | REBUILDING
deriving Repr, DecidableEq

/-- Modelled from the spec: `CONFIG.FLOOR_Y` lives in `utils/voxelConstants`,
which is not among the provided sources.  It is the height of the visible
floor plane; its exact value plays no role in any claim proved below, so a
fixed representative is used. -/
def FLOOR_Y : ℚ := -10

/-- The simulation-relevant fields of the `VoxelEngine` class. -/
structure Engine where
  voxels : List SimulationVoxel
  rebuildTargets : List RebuildTarget
  rebuildStartTime : ℚ
  state : AppState
  isProgressive : Bool
  manualProgress : ℚ
deriving Repr, DecidableEq

/-- Red channel of a 24-bit colour, as `new THREE.Color(c).r`: the high byte
scaled to `[0,1]`. -/
def colorR (c : ℕ) : ℚ := ((c / 65536) % 256 : ℕ) / 255

/-- Source `VoxelEngine.createVoxels`: reallocate the store from model data; colours
and positions are taken from the data, velocities and rotations zeroed.  The
instanced-mesh reallocation is display-only and omitted. -/
def createVoxels (data : List VoxelData) (e : Engine) : Engine :=
  { e with
    voxels := data.enum.map fun p =>
      { id := p.1, x := p.2.x, y := p.2.y, z := p.2.z, color := p.2.color,
        vx := 0, vy := 0, vz := 0, rx := 0, ry := 0, rz := 0,
        rvx := 0, rvy := 0, rvz := 0 } }

/-- Source `VoxelEngine.loadInitialModel`: full reset to `STABLE` with the given
data as both current and target state. -/
def loadInitialModel (data : List VoxelData) (e : Engine) : Engine :=
  createVoxels data
    { e with
      state := AppState.STABLE
      manualProgress := 0
      rebuildTargets := data.map fun v =>
        { x := v.x, y := v.y, z := v.z, delay := 0, isRubble := false } }

/-- Source `VoxelEngine.finishRebuild`: force the terminal state — snap every voxel
with a live target exactly onto it and zero its rotation and velocity; drop
rubble far below the floor. -/
def finishRebuild (e : Engine) : Engine :=
  { e with
    manualProgress := 1
    state := AppState.STABLE
    voxels := e.voxels.enum.map fun p =>
      match e.rebuildTargets[p.1]? with
      | some t =>
        if t.isRubble then { p.2 with y := FLOOR_Y - 300 }
        else
          { p.2 with
            x := t.x
            y := t.y
            z := t.z
            rx := 0, ry := 0, rz := 0, vx := 0, vy := 0, vz := 0 }
      | none => p.2 }

/-- Source `VoxelEngine.setProgress`: record the externally driven progress value;
at `p ≥ 1.0` while `REBUILDING`, complete the build. -/
def setProgress (p : ℚ) (e : Engine) : Engine :=
  let e2 : Engine := { e with manualProgress := p }
  if 1 ≤ p ∧ e2.state = AppState.REBUILDING then finishRebuild e2 else e2

/-- One entry of the `available` scratch array built by `rebuild`: the slot
index, the voxel's red channel, and the claimed flag.  (The source stores a
live reference to the voxel's colour object; the colour of an entry is only
read while the entry is unclaimed, and claimed entries are the only ones
mutated, so capturing the channel value is equivalent.) -/
structure AvailEntry where
  index : ℕ
  r : ℚ
  taken : Bool
deriving Repr, DecidableEq

/-- The inner scan of the assignment loop: walk the `available` entries in
order, skip claimed ones, track the entry whose red channel is closest to
`tr` (strictly closer wins, so the first best is kept), and stop early on a
near-exact match (`d < 0.01`).  `bd` is the running best distance (initially
9999) and `best` the running best position. -/
def scanBest (tr : ℚ) : List (ℕ × AvailEntry) → ℚ → Option ℕ → Option ℕ
  | [], _, best => best
  | p :: rest, bd, best =>
    if p.2.taken then scanBest tr rest bd best
    else
      if |p.2.r - tr| < bd then
        if |p.2.r - tr| < 1 / 100 then some p.1
        else scanBest tr rest (|p.2.r - tr|) (some p.1)
      else scanBest tr rest bd best

/-- Scratch state threaded through the assignment loop of `rebuild`. -/
structure AssignState where
  avail : List AvailEntry
  mappings : List (Option RebuildTarget)
  voxels : List SimulationVoxel
deriving Repr, DecidableEq

/-- Body of the `sortedTargets.forEach` in `rebuild`: match the target with
sorted rank `k` (of `n` targets) to the closest unclaimed voxel, record the
mapping with `delay = k / n`, and snap that voxel's colour to the target's. -/
def assignStep (n k : ℕ) (t : VoxelData) (st : AssignState) : AssignState :=
  match scanBest (colorR t.color) st.avail.enum 9999 none with
  | none => st
  | some bi =>
    match st.avail[bi]? with
    | none => st
    | some a =>
      { avail := st.avail.set bi { a with taken := true }
        mappings := st.mappings.set a.index
          (some { x := t.x, y := t.y, z := t.z,
                  delay := (k : ℚ) / (n : ℚ), isRubble := false })
        voxels :=
          match st.voxels[a.index]? with
          | some v => st.voxels.set a.index { v with color := t.color }
          | none => st.voxels }

/-- The assignment loop over the enumerated sorted targets. -/
def assignLoop (n : ℕ) : List (ℕ × VoxelData) → AssignState → AssignState
  | [], st => st
  | p :: rest, st => assignLoop n rest (assignStep n p.1 p.2 st)

/-- The target an unmatched slot receives: parked far below the floor with
`delay = 2`, beyond every reachable progress value. -/
def rubbleTarget : RebuildTarget :=
  { x := 0, y := FLOOR_Y - 300, z := 0, delay := 2, isRubble := true }

/-- Source `[...targetModel].sort((a, b) => a.y - b.y)`: the targets in ascending
height order. -/
def sortedTargetsOf (targetModel : List VoxelData) : List VoxelData :=
  targetModel.mergeSort fun a b => a.y ≤ b.y

/-- The `available` array and empty mapping table `rebuild` starts from. -/
def initAssign (voxels : List SimulationVoxel) : AssignState :=
  { avail := voxels.enum.map fun p =>
      { index := p.1, r := colorR p.2.color, taken := false }
    mappings := List.replicate voxels.length none
    voxels := voxels }

/-- The whole greedy assignment phase of `rebuild`. -/
def runAssign (voxels : List SimulationVoxel) (targetModel : List VoxelData) :
    AssignState :=
  assignLoop (sortedTargetsOf targetModel).length
    (sortedTargetsOf targetModel).enum (initAssign voxels)

/-- Source `VoxelEngine.rebuild`: enter `REBUILDING`, grow the store if the target
model is larger, run the greedy colour assignment over the targets sorted by
ascending height, and fill every unmatched slot with a rubble target. -/
def rebuild (targetModel : List VoxelData) (progressive : Bool) (now : ℚ)
    (e : Engine) : Engine :=
  let e1 : Engine :=
    { e with
      state := AppState.REBUILDING
      isProgressive := progressive }
  let e2 : Engine :=
    if e1.voxels.length < targetModel.length then
      createVoxels targetModel
        { e1 with
          rebuildTargets := targetModel.map fun v =>
            { x := v.x, y := v.y, z := v.z, delay := 2, isRubble := false } }
    else e1
  let res := runAssign e2.voxels targetModel
  { e2 with
    voxels := res.voxels
    rebuildTargets := res.mappings.map fun m => m.getD rubbleTarget
    rebuildStartTime := now }

/-- The simulation part of one `animate` frame at wall-clock time `now`
(milliseconds): the `DISMANTLING` free-fall integration and the `REBUILDING`
unlock-and-interpolate step.  Ring rotation, camera easing and drawing touch
no simulation state and are omitted. -/
def tick (now : ℚ) (e : Engine) : Engine :=
  match e.state with
  | AppState.STABLE => e
  | AppState.DISMANTLING =>
    { e with
      voxels := e.voxels.map fun v =>
        { v with
          vy := v.vy - 6 / 1000
          x := v.x + v.vx
          y := v.y + (v.vy - 6 / 1000)
          z := v.z + v.vz
          rx := v.rx + v.rvx, ry := v.ry + v.rvy, rz := v.rz + v.rvz
          vx := v.vx * (98 / 100), vz := v.vz * (98 / 100) } }
  | AppState.REBUILDING =>
    let elapsed := (now - e.rebuildStartTime) / 1000
    { e with
      voxels := e.voxels.enum.map fun p =>
        match e.rebuildTargets[p.1]? with
        | none => p.2
        | some t =>
          if t.isRubble then p.2
          else
            let v := p.2
            let isUnlocked :=
              if e.isProgressive then t.delay ≤ e.manualProgress
              else t.delay * 2 < elapsed
            if isUnlocked then
              { v with
                x := v.x + (t.x - v.x) * (15 / 100)
                y := v.y + (t.y - v.y) * (15 / 100)
                z := v.z + (t.z - v.z) * (15 / 100)
                rx := v.rx + (0 - v.rx) * (15 / 100)
                ry := v.ry + (0 - v.ry) * (15 / 100)
                rz := v.rz + (0 - v.rz) * (15 / 100)
                vx := 0, vy := 0, vz := 0 }
            else if FLOOR_Y - 5 < v.y then
              { v with
                vy := v.vy - 6 / 1000
                x := v.x + v.vx
                y := v.y + (v.vy - 6 / 1000)
                z := v.z + v.vz
                rx := v.rx + v.rvx, ry := v.ry + v.rvy, rz := v.rz + v.rvz
                vx := v.vx * (98 / 100), vz := v.vz * (98 / 100) }
            else
              { v with
                y := v.y + ((FLOOR_Y - 10) - v.y) * (1 / 10)
                vx := 0, vy := 0, vz := 0 } }

/-- JavaScript `Math.round` as defined it for finite arguments:
`⌊x + 1/2⌋`. -/
def jsRound (x : ℚ) : ℤ := ⌊x + 1 / 2⌋

/-- Source `normalizeVoxels` (App.tsx): centre a voxel list on X/Z and rest it on
`y = 0`, rounding the shifted coordinates; the empty list is returned
unchanged.  The `Infinity` seeds of the source's min/max folds are modelled
by seeding with the first element, which yields the same folds on non-empty
input. -/
def normalizeVoxels (voxels : List VoxelData) : List VoxelData :=
  match voxels with
  | [] => voxels
  | v0 :: vs =>
    let minX := vs.foldl (fun m v => min m v.x) v0.x
    let maxX := vs.foldl (fun m v => max m v.x) v0.x
    let minY := vs.foldl (fun m v => min m v.y) v0.y
    let _maxY := vs.foldl (fun m v => max m v.y) v0.y
    let minZ := vs.foldl (fun m v => min m v.z) v0.z
    let maxZ := vs.foldl (fun m v => max m v.z) v0.z
    let offsetX := -(minX + maxX) / 2
    let offsetY := -minY
    let offsetZ := -(minZ + maxZ) / 2
    (v0 :: vs).map fun v =>
      { v with
        x := (jsRound (v.x + offsetX) : ℚ)
        y := (jsRound (v.y + offsetY) : ℚ)
        z := (jsRound (v.z + offsetZ) : ℚ) }

/-- Minimum of a coordinate over a voxel list, folded exactly as the source
folds it (seeded with the first element). -/
def minCoord (f : VoxelData → ℚ) : List VoxelData → ℚ
  | [] => 0
  | v :: vs => vs.foldl (fun m w => min m (f w)) (f v)

/-- Maximum of a coordinate over a voxel list. -/
def maxCoord (f : VoxelData → ℚ) : List VoxelData → ℚ
  | [] => 0
  | v :: vs => vs.foldl (fun m w => max m (f w)) (f v)

/-- The invariant carried through the assignment loop of `rebuild`.
`all` is the sorted target list, `N` the store size and `k` the number of
targets processed so far.  It records: the scratch lists keep their
lengths; `available[i].index = i`; red channels stay in `[0,1]`; a slot is
claimed exactly when it carries a mapping; every recorded mapping comes
from a distinct already-processed target, carries `delay = rank / |all|`,
is not rubble, and has snapped its voxel's colour; and the number of
recorded mappings is `min k N`. -/
structure AssignInv (all : List VoxelData) (N k : ℕ) (st : AssignState) :
    Prop where
  lenA : st.avail.length = N
  lenM : st.mappings.length = N
  lenV : st.voxels.length = N
  idx : ∀ (i : ℕ) (a : AvailEntry), st.avail[i]? = some a → a.index = i
  rbound : ∀ a ∈ st.avail, 0 ≤ a.r ∧ a.r ≤ 1
  link : ∀ (i : ℕ) (a : AvailEntry) (m : Option RebuildTarget),
    st.avail[i]? = some a → st.mappings[i]? = some m → m.isSome = a.taken
  sound : ∀ (i : ℕ) (m : RebuildTarget), st.mappings[i]? = some (some m) →
    ∃ j, ∃ hj : j < all.length, j < k ∧
      m.delay = (j : ℚ) / (all.length : ℚ) ∧
      m.x = (all.get ⟨j, hj⟩).x ∧ m.y = (all.get ⟨j, hj⟩).y ∧
      m.z = (all.get ⟨j, hj⟩).z ∧ m.isRubble = false ∧
      ∃ v, st.voxels[i]? = some v ∧ v.color = (all.get ⟨j, hj⟩).color
  inj : ∀ (i1 i2 : ℕ) (m1 m2 : RebuildTarget),
    st.mappings[i1]? = some (some m1) → st.mappings[i2]? = some (some m2) →
    m1.delay = m2.delay → i1 = i2
  count : st.mappings.countP (fun m => m.isSome) = min k N

/-! ### Concrete engines used by witnesses and counterexamples -/

/-- A converged, non-progressive rebuilding engine: its single live voxel
sits exactly on its target. -/
def cxConverged : Engine :=
  { voxels := [{ id := 0, x := 0, y := 0, z := 0, color := 255,
                 vx := 0, vy := 0, vz := 0, rx := 0, ry := 0, rz := 0,
                 rvx := 0, rvy := 0, rvz := 0 }]
    rebuildTargets := [{ x := 0, y := 0, z := 0, delay := 0, isRubble := false }]
    rebuildStartTime := 0
    state := AppState.REBUILDING
    isProgressive := false
    manualProgress := 0 }

/-- A stable engine with zero recorded progress. -/
def cxStable : Engine :=
  { voxels := []
    rebuildTargets := []
    rebuildStartTime := 0
    state := AppState.STABLE
    isProgressive := false
    manualProgress := 0 }

/-- A rebuilding engine whose single voxel sits away from its non-rubble
target, with non-zero velocity and rotation. -/
def cxFin : Engine :=
  { voxels := [{ id := 0, x := 7, y := 8, z := 9, color := 255,
                 vx := 4, vy := 5, vz := 6, rx := 1, ry := 1, rz := 1,
                 rvx := 0, rvy := 0, rvz := 0 }]
    rebuildTargets := [{ x := 1, y := 2, z := 3, delay := 0, isRubble := false }]
    rebuildStartTime := 0
    state := AppState.REBUILDING
    isProgressive := false
    manualProgress := 0 }

/-- A progressive rebuilding engine, mid-flight. -/
def cxReb : Engine :=
  { voxels := [{ id := 0, x := 7, y := 8, z := 9, color := 255,
                 vx := 4, vy := 5, vz := 6, rx := 1, ry := 1, rz := 1,
                 rvx := 0, rvy := 0, rvz := 0 }]
    rebuildTargets := [{ x := 1, y := 2, z := 3, delay := 0, isRubble := false }]
    rebuildStartTime := 0
    state := AppState.REBUILDING
    isProgressive := true
    manualProgress := 0 }

/-- A red voxel (channel `r = 1`) in slot 0. -/
def vRed : SimulationVoxel :=
  { id := 0, x := 0, y := 0, z := 0, color := 0xff0000,
    vx := 0, vy := 0, vz := 0, rx := 0, ry := 0, rz := 0,
    rvx := 0, rvy := 0, rvz := 0 }

/-- A black voxel (channel `r = 0`) in slot 1. -/
def vBlack : SimulationVoxel :=
  { id := 1, x := 1, y := 0, z := 0, color := 0,
    vx := 0, vy := 0, vz := 0, rx := 0, ry := 0, rz := 0,
    rvx := 0, rvy := 0, rvz := 0 }

/-- A stable engine holding one red and one black voxel. -/
def cxPairEngine : Engine :=
  { voxels := [vRed, vBlack]
    rebuildTargets := []
    rebuildStartTime := 0
    state := AppState.STABLE
    isProgressive := false
    manualProgress := 0 }

/-- A red target at ground level. -/
def tLow : VoxelData := { x := 6, y := 0, z := 0, color := 0xff0000 }

/-- A black target one level up. -/
def tHigh : VoxelData := { x := 5, y := 1, z := 0, color := 0 }

/-- A single black target at ground level. -/
def tOne : VoxelData := { x := 5, y := 0, z := 0, color := 0 }

/-- The mapping `rebuild` records for `tLow` (rank 0 of 2). -/
def cxTgtA : RebuildTarget :=
  { x := 6, y := 0, z := 0, delay := 0, isRubble := false }

/-- The mapping `rebuild` records for `tHigh` (rank 1 of 2). -/
def cxTgtB : RebuildTarget :=
  { x := 5, y := 1, z := 0, delay := 1 / 2, isRubble := false }

/-! ### C3: no implicit convergence transition -/

/-- Claim C3 counterexample: an engine in `REBUILDING`, not under
progressive control, whose every non-rubble voxel sits exactly on its
target (hence within any convergence tolerance), still fails to transition
to `STABLE` on the next frame: the per-frame update of `animate` contains
no convergence check at all. -/
theorem tick_no_implicit_stable_cx :
    cxConverged.state = AppState.REBUILDING ∧
    cxConverged.isProgressive = false ∧
    (cxConverged.voxels.map fun v => (v.x, v.y, v.z)) = [(0, 0, 0)] ∧
    (cxConverged.rebuildTargets.map fun t => (t.x, t.y, t.z, t.isRubble)) =
      [(0, 0, 0, false)] ∧
    (tick 5 cxConverged).state ≠ AppState.STABLE := by
  refine ⟨rfl, rfl, rfl, rfl, ?_⟩
  intro h
  exact absurd h (by simp [tick, cxConverged])

/-- Claim C3, amended: the per-frame simulation step never changes the
lifecycle state; in particular a fully converged, non-progressive rebuild
stays in `REBUILDING` until `finishRebuild` (directly, or through
`setProgress` with `p ≥ 1`) is called. -/
theorem tick_preserves_state (now : ℚ) (e : Engine) :
    (tick now e).state = e.state := by
  cases h : e.state <;> simp [tick, h]

/-! ### C4: state-gating of `setProgress` -/

/-- Claim C4 counterexample: `setProgress` during `STABLE` is not a complete
no-op — the internal `manualProgress` field is overwritten unconditionally,
before the state gate is consulted. -/
theorem setProgress_gated_cx :
    cxStable.state = AppState.STABLE ∧
    cxStable.manualProgress = 0 ∧
    (setProgress (1 / 2) cxStable).manualProgress ≠ cxStable.manualProgress := by
  refine ⟨rfl, rfl, ?_⟩
  norm_num [setProgress, cxStable]

/-- Claim C4, amended: calling `setProgress p` while the state is `STABLE`
or `DISMANTLING` leaves the voxel store, the rebuild targets, the state, the
progressive flag and the rebuild start time unchanged, but always records
`p` into the internal `manualProgress` field. -/
theorem setProgress_gated (p : ℚ) (e : Engine)
    (h : e.state = AppState.STABLE ∨ e.state = AppState.DISMANTLING) :
    (setProgress p e).voxels = e.voxels ∧
    (setProgress p e).rebuildTargets = e.rebuildTargets ∧
    (setProgress p e).state = e.state ∧
    (setProgress p e).isProgressive = e.isProgressive ∧
    (setProgress p e).rebuildStartTime = e.rebuildStartTime ∧
    (setProgress p e).manualProgress = p := by
  have hne : ¬(e.state = AppState.REBUILDING) := by
    rcases h with h | h <;> simp [h]
  simp [setProgress, hne]

/-- Witness for the amended C4 at a concrete input. -/
theorem setProgress_gated_witness :
    (cxStable.state = AppState.STABLE ∨ cxStable.state = AppState.DISMANTLING) ∧
    ((setProgress (1 / 2) cxStable).voxels = cxStable.voxels ∧
     (setProgress (1 / 2) cxStable).rebuildTargets = cxStable.rebuildTargets ∧
     (setProgress (1 / 2) cxStable).state = cxStable.state ∧
     (setProgress (1 / 2) cxStable).isProgressive = cxStable.isProgressive ∧
     (setProgress (1 / 2) cxStable).rebuildStartTime = cxStable.rebuildStartTime ∧
     (setProgress (1 / 2) cxStable).manualProgress = 1 / 2) :=
  ⟨Or.inl rfl, setProgress_gated (1 / 2) cxStable (Or.inl rfl)⟩

/-! ### C5: `finishRebuild` snaps exactly -/

/-- Claim C5: `finishRebuild` puts the engine in `STABLE`, keeps the store
length, and sets every voxel whose slot carries a non-rubble target exactly
onto the target's coordinates with rotation and velocity zeroed — whatever
the positions were beforehand. -/
theorem finishRebuild_snaps (e : Engine) :
    (finishRebuild e).state = AppState.STABLE ∧
    (finishRebuild e).voxels.length = e.voxels.length ∧
    ∀ (i : ℕ) (t : RebuildTarget) (v2 : SimulationVoxel),
      e.rebuildTargets[i]? = some t → t.isRubble = false →
      (finishRebuild e).voxels[i]? = some v2 →
      v2.x = t.x ∧ v2.y = t.y ∧ v2.z = t.z ∧
      v2.rx = 0 ∧ v2.ry = 0 ∧ v2.rz = 0 ∧
      v2.vx = 0 ∧ v2.vy = 0 ∧ v2.vz = 0 := by
  refine ⟨rfl, by simp [finishRebuild], ?_⟩
  intro i t v2 ht hr hv
  simp only [finishRebuild, List.getElem?_map, List.getElem?_enum] at hv
  rcases hx : e.voxels[i]? with _ | v
  · rw [hx] at hv
    simp at hv
  · rw [hx] at hv
    simp only [Option.map_some'] at hv
    rw [ht] at hv
    simp only [hr, Bool.false_eq_true, if_false, Option.some.injEq] at hv
    subst hv
    simp

/-- Witness for C5 at a concrete engine: the voxel starts at `(7,8,9)` with
non-zero velocity and rotation and ends exactly at its target `(1,2,3)` with
everything zeroed. -/
theorem finishRebuild_snaps_witness :
    ((finishRebuild cxFin).voxels[0]?.map fun v =>
      (v.x, v.y, v.z, v.rx, v.ry, v.rz, v.vx, v.vy, v.vz)) =
      some (1, 2, 3, 0, 0, 0, 0, 0, 0) ∧
    (finishRebuild cxFin).state = AppState.STABLE := by
  have hv : (finishRebuild cxFin).voxels[0]? =
      some { id := 0, x := 1, y := 2, z := 3, color := 255,
             vx := 0, vy := 0, vz := 0, rx := 0, ry := 0, rz := 0,
             rvx := 0, rvy := 0, rvz := 0 } := rfl
  have h := (finishRebuild_snaps cxFin).2.2 0
    { x := 1, y := 2, z := 3, delay := 0, isRubble := false } _ rfl rfl hv
  rw [hv]
  exact ⟨by simp [h.1, h.2.1, h.2.2.1, h.2.2.2.1, h.2.2.2.2.1, h.2.2.2.2.2.1,
                  h.2.2.2.2.2.2.1, h.2.2.2.2.2.2.2.1, h.2.2.2.2.2.2.2.2],
         (finishRebuild_snaps cxFin).1⟩

/-! ### C6: `setProgress` at `p ≥ 1` completes the build -/

/-- Claim C6: while `REBUILDING` in progressive mode, `setProgress p` with
`p ≥ 1` produces exactly the engine state `finishRebuild` would produce. -/
theorem setProgress_one_eq_finishRebuild (e : Engine) (p : ℚ)
    (h1 : e.state = AppState.REBUILDING) (_h2 : e.isProgressive = true)
    (hp : 1 ≤ p) :
    setProgress p e = finishRebuild e := by
  have hc : 1 ≤ p ∧ ({ e with manualProgress := p } : Engine).state =
      AppState.REBUILDING := ⟨hp, h1⟩
  simp only [setProgress, if_pos hc]
  rfl

/-- Witness for C6 at a concrete progressive rebuilding engine. -/
theorem setProgress_one_eq_finishRebuild_witness :
    cxReb.state = AppState.REBUILDING ∧ cxReb.isProgressive = true ∧
    (1 : ℚ) ≤ 3 / 2 ∧
    setProgress (3 / 2) cxReb = finishRebuild cxReb :=
  ⟨rfl, rfl, by norm_num,
   setProgress_one_eq_finishRebuild cxReb (3 / 2) rfl rfl (by norm_num)⟩

/-! ### C8: the normalizer -/

lemma foldl_min_le_init {α : Type} (f : α → ℚ) (l : List α) (a : ℚ) :
    l.foldl (fun m v => min m (f v)) a ≤ a := by
  induction l generalizing a with
  | nil => exact le_rfl
  | cons w ws ih => exact le_trans (ih (min a (f w))) (min_le_left _ _)

lemma foldl_min_map_mono {α : Type} (f : α → ℚ) (g : ℚ → ℚ) (hg : Monotone g)
    (l : List α) (a : ℚ) :
    l.foldl (fun m v => min m (g (f v))) (g a) =
      g (l.foldl (fun m v => min m (f v)) a) := by
  induction l generalizing a with
  | nil => rfl
  | cons w ws ih =>
    show ws.foldl _ (min (g a) (g (f w))) = _
    rw [← hg.map_min]
    exact ih (min a (f w))

lemma foldl_max_map_mono {α : Type} (f : α → ℚ) (g : ℚ → ℚ) (hg : Monotone g)
    (l : List α) (a : ℚ) :
    l.foldl (fun m v => max m (g (f v))) (g a) =
      g (l.foldl (fun m v => max m (f v)) a) := by
  induction l generalizing a with
  | nil => rfl
  | cons w ws ih =>
    show ws.foldl _ (max (g a) (g (f w))) = _
    rw [← hg.map_max]
    exact ih (max a (f w))

lemma minCoord_map_mono (f : VoxelData → ℚ) (g : ℚ → ℚ) (hg : Monotone g)
    (φ : VoxelData → VoxelData) (hφ : ∀ v, f (φ v) = g (f v))
    (v0 : VoxelData) (vs : List VoxelData) :
    minCoord f ((v0 :: vs).map φ) = g (minCoord f (v0 :: vs)) := by
  show (vs.map φ).foldl (fun m w => min m (f w)) (f (φ v0)) = _
  rw [List.foldl_map, hφ]
  have hfun : (fun (m : ℚ) (w : VoxelData) => min m (f (φ w))) =
      fun (m : ℚ) (w : VoxelData) => min m (g (f w)) := by
    funext m w
    rw [hφ]
  rw [hfun]
  exact foldl_min_map_mono f g hg vs (f v0)

lemma maxCoord_map_mono (f : VoxelData → ℚ) (g : ℚ → ℚ) (hg : Monotone g)
    (φ : VoxelData → VoxelData) (hφ : ∀ v, f (φ v) = g (f v))
    (v0 : VoxelData) (vs : List VoxelData) :
    maxCoord f ((v0 :: vs).map φ) = g (maxCoord f (v0 :: vs)) := by
  show (vs.map φ).foldl (fun m w => max m (f w)) (f (φ v0)) = _
  rw [List.foldl_map, hφ]
  have hfun : (fun (m : ℚ) (w : VoxelData) => max m (f (φ w))) =
      fun (m : ℚ) (w : VoxelData) => max m (g (f w)) := by
    funext m w
    rw [hφ]
  rw [hfun]
  exact foldl_max_map_mono f g hg vs (f v0)

lemma jsRound_monotone (c : ℚ) :
    Monotone fun t : ℚ => ((jsRound (t + c) : ℤ) : ℚ) := by
  intro s t hst
  have h : jsRound (s + c) ≤ jsRound (t + c) := by
    unfold jsRound
    exact Int.floor_le_floor (by linarith)
  show ((jsRound (s + c) : ℤ) : ℚ) ≤ ((jsRound (t + c) : ℤ) : ℚ)
  exact_mod_cast h

lemma floor_pair_sum (s t : ℚ) (h : s + t = 1) :
    0 ≤ ⌊s⌋ + ⌊t⌋ ∧ ⌊s⌋ + ⌊t⌋ ≤ 1 := by
  constructor
  · have hs := Int.sub_one_lt_floor s
    have ht := Int.sub_one_lt_floor t
    have : (-1 : ℚ) < (⌊s⌋ : ℚ) + (⌊t⌋ : ℚ) := by linarith
    have : (-1 : ℤ) < ⌊s⌋ + ⌊t⌋ := by exact_mod_cast this
    omega
  · have hs := Int.floor_le s
    have ht := Int.floor_le t
    have : ((⌊s⌋ : ℚ) + (⌊t⌋ : ℚ)) ≤ 1 := by linarith
    exact_mod_cast this

/-- Claim C8: the normalizer returns the input unchanged on the empty list;
on a non-empty list every output coordinate is an integer, the minimum `y`
of the output is exactly `0`, and the output bounding box is centred on `x`
and `z` up to integer rounding (`0 ≤ min + max ≤ 1`, i.e. the midpoint is
within half a unit of the origin).  `normalizeVoxels` is a pure function of
its argument, so it reads and writes no simulation state by construction. -/
theorem normalizeVoxels_spec (voxels : List VoxelData) :
    (voxels = [] → normalizeVoxels voxels = voxels) ∧
    (voxels ≠ [] →
      minCoord (fun v => v.y) (normalizeVoxels voxels) = 0 ∧
      (0 ≤ minCoord (fun v => v.x) (normalizeVoxels voxels) +
           maxCoord (fun v => v.x) (normalizeVoxels voxels) ∧
       minCoord (fun v => v.x) (normalizeVoxels voxels) +
           maxCoord (fun v => v.x) (normalizeVoxels voxels) ≤ 1) ∧
      (0 ≤ minCoord (fun v => v.z) (normalizeVoxels voxels) +
           maxCoord (fun v => v.z) (normalizeVoxels voxels) ∧
       minCoord (fun v => v.z) (normalizeVoxels voxels) +
           maxCoord (fun v => v.z) (normalizeVoxels voxels) ≤ 1) ∧
      ∀ w ∈ normalizeVoxels voxels,
        (∃ a : ℤ, w.x = (a : ℚ)) ∧ (∃ b : ℤ, w.y = (b : ℚ)) ∧
        (∃ c : ℤ, w.z = (c : ℚ))) := by
  constructor
  · intro h
    subst h
    rfl
  · intro hne
    obtain ⟨v0, vs, rfl⟩ : ∃ v0 vs, voxels = v0 :: vs := by
      cases voxels with
      | nil => exact absurd rfl hne
      | cons v0 vs => exact ⟨v0, vs, rfl⟩
    set minX := vs.foldl (fun m v => min m v.x) v0.x with hminX
    set maxX := vs.foldl (fun m v => max m v.x) v0.x with hmaxX
    set minY := vs.foldl (fun m v => min m v.y) v0.y with hminY
    set minZ := vs.foldl (fun m v => min m v.z) v0.z with hminZ
    set maxZ := vs.foldl (fun m v => max m v.z) v0.z with hmaxZ
    set offX := -(minX + maxX) / 2 with hoffX
    set offY := -minY with hoffY
    set offZ := -(minZ + maxZ) / 2 with hoffZ
    set φ : VoxelData → VoxelData := fun v =>
      { v with
        x := (jsRound (v.x + offX) : ℚ)
        y := (jsRound (v.y + offY) : ℚ)
        z := (jsRound (v.z + offZ) : ℚ) } with hφ
    have hnv : normalizeVoxels (v0 :: vs) = (v0 :: vs).map φ := rfl
    have hxφ : ∀ v, (φ v).x = ((jsRound (v.x + offX) : ℤ) : ℚ) := fun v => rfl
    have hyφ : ∀ v, (φ v).y = ((jsRound (v.y + offY) : ℤ) : ℚ) := fun v => rfl
    have hzφ : ∀ v, (φ v).z = ((jsRound (v.z + offZ) : ℤ) : ℚ) := fun v => rfl
    have hminmapX := minCoord_map_mono (fun v => v.x) _ (jsRound_monotone offX) φ hxφ v0 vs
    have hmaxmapX := maxCoord_map_mono (fun v => v.x) _ (jsRound_monotone offX) φ hxφ v0 vs
    have hminmapY := minCoord_map_mono (fun v => v.y) _ (jsRound_monotone offY) φ hyφ v0 vs
    have hminmapZ := minCoord_map_mono (fun v => v.z) _ (jsRound_monotone offZ) φ hzφ v0 vs
    have hmaxmapZ := maxCoord_map_mono (fun v => v.z) _ (jsRound_monotone offZ) φ hzφ v0 vs
    have hminCx : minCoord (fun v => v.x) (v0 :: vs) = minX := rfl
    have hmaxCx : maxCoord (fun v => v.x) (v0 :: vs) = maxX := rfl
    have hminCy : minCoord (fun v => v.y) (v0 :: vs) = minY := rfl
    have hminCz : minCoord (fun v => v.z) (v0 :: vs) = minZ := rfl
    have hmaxCz : maxCoord (fun v => v.z) (v0 :: vs) = maxZ := rfl
    refine ⟨?_, ⟨?_, ?_⟩, ⟨?_, ?_⟩, ?_⟩
    · rw [hnv, hminmapY, hminCy]
      have : jsRound (minY + offY) = 0 := by
        rw [hoffY]
        unfold jsRound
        norm_num
      rw [this]
      norm_num
    · rw [hnv, hminmapX, hmaxmapX, hminCx, hmaxCx]
      have hsum : (minX + offX + 1 / 2) + (maxX + offX + 1 / 2) = 1 := by
        rw [hoffX]
        ring
      have h2 := floor_pair_sum _ _ hsum
      unfold jsRound
      exact_mod_cast h2.1
    · rw [hnv, hminmapX, hmaxmapX, hminCx, hmaxCx]
      have hsum : (minX + offX + 1 / 2) + (maxX + offX + 1 / 2) = 1 := by
        rw [hoffX]
        ring
      have h2 := floor_pair_sum _ _ hsum
      unfold jsRound
      exact_mod_cast h2.2
    · rw [hnv, hminmapZ, hmaxmapZ, hminCz, hmaxCz]
      have hsum : (minZ + offZ + 1 / 2) + (maxZ + offZ + 1 / 2) = 1 := by
        rw [hoffZ]
        ring
      have h2 := floor_pair_sum _ _ hsum
      unfold jsRound
      exact_mod_cast h2.1
    · rw [hnv, hminmapZ, hmaxmapZ, hminCz, hmaxCz]
      have hsum : (minZ + offZ + 1 / 2) + (maxZ + offZ + 1 / 2) = 1 := by
        rw [hoffZ]
        ring
      have h2 := floor_pair_sum _ _ hsum
      unfold jsRound
      exact_mod_cast h2.2
    · intro w hw
      rw [hnv] at hw
      obtain ⟨v, _hv, rfl⟩ := List.mem_map.mp hw
      exact ⟨⟨jsRound (v.x + offX), rfl⟩, ⟨jsRound (v.y + offY), rfl⟩,
             ⟨jsRound (v.z + offZ), rfl⟩⟩

/-- Witness for C8 at a concrete list: two voxels at `(0,3,5)` and `(1,4,6)`
normalize with minimum `y` equal to `0` and centred `x`/`z` extents. -/
theorem normalizeVoxels_spec_witness :
    ([⟨0, 3, 5, 7⟩, ⟨1, 4, 6, 7⟩] : List VoxelData) ≠ [] ∧
    minCoord (fun v => v.y)
      (normalizeVoxels [⟨0, 3, 5, 7⟩, ⟨1, 4, 6, 7⟩]) = 0 ∧
    minCoord (fun v => v.x) (normalizeVoxels [⟨0, 3, 5, 7⟩, ⟨1, 4, 6, 7⟩]) +
      maxCoord (fun v => v.x) (normalizeVoxels [⟨0, 3, 5, 7⟩, ⟨1, 4, 6, 7⟩]) ≤ 1 := by
  have hne : ([⟨0, 3, 5, 7⟩, ⟨1, 4, 6, 7⟩] : List VoxelData) ≠ [] := by
    intro h
    exact absurd h (by simp)
  have h := (normalizeVoxels_spec [⟨0, 3, 5, 7⟩, ⟨1, 4, 6, 7⟩]).2 hne
  exact ⟨hne, h.1, h.2.1.2⟩

/-! ### The greedy assignment: scan lemmas -/

lemma colorR_nonneg (c : ℕ) : 0 ≤ colorR c := by
  unfold colorR
  positivity

lemma colorR_le_one (c : ℕ) : colorR c ≤ 1 := by
  unfold colorR
  rw [div_le_one (by norm_num)]
  have h : (c / 65536) % 256 < 256 := Nat.mod_lt _ (by norm_num)
  have h2 : (((c / 65536) % 256 : ℕ) : ℚ) ≤ 255 := by
    exact_mod_cast Nat.le_of_lt_succ h
  linarith

lemma scanBest_acc_isSome (tr : ℚ) (ps : List (ℕ × AvailEntry)) (bd : ℚ)
    (i : ℕ) : (scanBest tr ps bd (some i)).isSome = true := by
  induction ps generalizing bd i with
  | nil => rfl
  | cons p rest ih =>
    unfold scanBest
    by_cases h1 : p.2.taken = true
    · simp only [h1, if_true]
      exact ih bd i
    · simp only [h1, if_false]
      by_cases h2 : |p.2.r - tr| < bd
      · simp only [h2, if_true]
        by_cases h3 : |p.2.r - tr| < 1 / 100
        · rw [if_pos h3]
          simp
        · rw [if_neg h3]
          exact ih _ _
      · simp only [h2, if_false]
        exact ih bd i

lemma scanBest_mem (tr : ℚ) (ps : List (ℕ × AvailEntry)) (bd : ℚ)
    (acc : Option ℕ) (bi : ℕ) (h : scanBest tr ps bd acc = some bi) :
    (∃ a, (bi, a) ∈ ps ∧ a.taken = false) ∨ acc = some bi := by
  induction ps generalizing bd acc with
  | nil => exact Or.inr h
  | cons p rest ih =>
    unfold scanBest at h
    by_cases h1 : p.2.taken = true
    · rw [if_pos h1] at h
      rcases ih bd acc h with ⟨a, ha, hta⟩ | hacc
      · exact Or.inl ⟨a, List.mem_cons_of_mem _ ha, hta⟩
      · exact Or.inr hacc
    · rw [if_neg h1] at h
      by_cases h2 : |p.2.r - tr| < bd
      · rw [if_pos h2] at h
        by_cases h3 : |p.2.r - tr| < 1 / 100
        · rw [if_pos h3] at h
          obtain rfl : p.1 = bi := Option.some_injective _ h
          refine Or.inl ⟨p.2, ?_, by simpa using h1⟩
          exact List.mem_cons_self _ _
        · rw [if_neg h3] at h
          rcases ih _ _ h with ⟨a, ha, hta⟩ | hacc
          · exact Or.inl ⟨a, List.mem_cons_of_mem _ ha, hta⟩
          · obtain rfl : p.1 = bi := Option.some_injective _ hacc
            refine Or.inl ⟨p.2, ?_, by simpa using h1⟩
            exact List.mem_cons_self _ _
      · rw [if_neg h2] at h
        rcases ih bd acc h with ⟨a, ha, hta⟩ | hacc
        · exact Or.inl ⟨a, List.mem_cons_of_mem _ ha, hta⟩
        · exact Or.inr hacc

lemma scanBest_none (tr : ℚ) (ps : List (ℕ × AvailEntry)) (bd : ℚ)
    (acc : Option ℕ) (h : scanBest tr ps bd acc = none) :
    ∀ p ∈ ps, p.2.taken = true ∨ ¬(|p.2.r - tr| < bd) := by
  induction ps generalizing bd acc with
  | nil => intro p hp; cases hp
  | cons q rest ih =>
    unfold scanBest at h
    intro p hp
    by_cases h1 : q.2.taken = true
    · rw [if_pos h1] at h
      rcases List.mem_cons.mp hp with rfl | hp2
      · exact Or.inl h1
      · exact ih bd acc h p hp2
    · rw [if_neg h1] at h
      by_cases h2 : |q.2.r - tr| < bd
      · rw [if_pos h2] at h
        by_cases h3 : |q.2.r - tr| < 1 / 100
        · rw [if_pos h3] at h
          cases h
        · rw [if_neg h3] at h
          have := scanBest_acc_isSome tr rest (|q.2.r - tr|) q.1
          rw [h] at this
          cases this
      · rw [if_neg h2] at h
        rcases List.mem_cons.mp hp with rfl | hp2
        · exact Or.inr h2
        · exact ih bd acc h p hp2

/-- On an `available` list whose channels lie in `[0,1]`, the scan with the
initial distance bound `9999` fails only when every entry is claimed. -/
lemma scanBest_none_all_taken (tr : ℚ) (avail : List AvailEntry)
    (hb : ∀ a ∈ avail, 0 ≤ a.r ∧ a.r ≤ 1)
    (htr : 0 ≤ tr ∧ tr ≤ 1)
    (h : scanBest tr avail.enum 9999 none = none) :
    ∀ a ∈ avail, a.taken = true := by
  intro a ha
  obtain ⟨i, hi, rfl⟩ := List.mem_iff_getElem.mp ha
  have hmem : (i, avail[i]) ∈ avail.enum := by
    rw [List.mem_enum_iff_getElem?]
    exact List.getElem?_eq_getElem hi
  rcases scanBest_none tr avail.enum 9999 none h (i, avail[i]) hmem with ht | hd
  · exact ht
  · exfalso
    have hba := hb avail[i] (List.getElem_mem hi)
    have : |avail[i].r - tr| ≤ 1 := by
      rw [abs_le]
      constructor <;> linarith [hba.1, hba.2, htr.1, htr.2]
    exact hd (by linarith)

/-- A successful scan returns an unclaimed slot of the `available` list. -/
lemma scanBest_some_spec (tr : ℚ) (avail : List AvailEntry) (bi : ℕ)
    (h : scanBest tr avail.enum 9999 none = some bi) :
    ∃ a, avail[bi]? = some a ∧ a.taken = false := by
  rcases scanBest_mem tr avail.enum 9999 none bi h with ⟨a, ha, hta⟩ | hacc
  · rw [List.mem_enum_iff_getElem?] at ha
    exact ⟨a, ha, hta⟩
  · cases hacc

/-! ### The greedy assignment: loop invariant -/

lemma assignStep_inv (all : List VoxelData) (N k : ℕ) (st : AssignState)
    (inv : AssignInv all N k st) (hk : k < all.length) :
    AssignInv all N (k + 1)
      (assignStep all.length k (all.get ⟨k, hk⟩) st) := by
  set t := all.get ⟨k, hk⟩ with hts
  unfold assignStep
  split
  · -- the scan failed: every slot is already claimed and the step is a no-op
    rename_i hscan
    have htaken : ∀ a ∈ st.avail, a.taken = true :=
      scanBest_none_all_taken _ _ inv.rbound
        ⟨colorR_nonneg _, colorR_le_one _⟩ hscan
    have hfull : st.mappings.countP (fun m => m.isSome) = N := by
      rw [← inv.lenM]
      rw [List.countP_eq_length]
      intro m hm
      obtain ⟨i, hi, rfl⟩ := List.mem_iff_getElem.mp hm
      have hia : i < st.avail.length := by
        rw [inv.lenA, ← inv.lenM]
        exact hi
      have hlink := inv.link i st.avail[i] st.mappings[i]
        (List.getElem?_eq_getElem hia) (List.getElem?_eq_getElem hi)
      rw [hlink]
      exact htaken _ (List.getElem_mem hia)
    refine { lenA := inv.lenA, lenM := inv.lenM, lenV := inv.lenV,
             idx := inv.idx, rbound := inv.rbound, link := inv.link,
             sound := ?_, inj := inv.inj, count := ?_ }
    · intro i m hm
      obtain ⟨j, hj, hjk, hrest⟩ := inv.sound i m hm
      exact ⟨j, hj, Nat.lt_succ_of_lt hjk, hrest⟩
    · have hc := inv.count
      rw [hfull] at hc ⊢
      omega
  · -- the scan found an unclaimed slot `bi`
    rename_i bi hscan
    split
    · -- `avail[bi]?` cannot be `none` on a successful scan
      rename_i hanone
      obtain ⟨a, ha, hta⟩ := scanBest_some_spec _ _ _ hscan
      rw [hanone] at ha
      cases ha
    · rename_i a ha
      have hta : a.taken = false := by
        obtain ⟨a2, ha2, hta2⟩ := scanBest_some_spec _ _ _ hscan
        rw [ha] at ha2
        obtain rfl := Option.some_injective _ ha2
        exact hta2
      have hbiA : bi < st.avail.length := (List.getElem?_eq_some_iff.mp ha).1
      have hbiN : bi < N := by rw [← inv.lenA]; exact hbiA
      have hai : a.index = bi := inv.idx bi a ha
      have hbiV : bi < st.voxels.length := by rw [inv.lenV]; exact hbiN
      have hbiM : bi < st.mappings.length := by rw [inv.lenM]; exact hbiN
      have hamem : a ∈ st.avail := by
        obtain ⟨h1, h2⟩ := List.getElem?_eq_some_iff.mp ha
        rw [← h2]
        exact List.getElem_mem h1
      split
      · rename_i v hv
        -- the matched slot's voxel exists; prove the invariant for the
        -- updated state
        rw [hai] at hv
        rw [hai]
        have hveq : st.voxels[bi] = v := by
          have := List.getElem?_eq_getElem hbiV
          rw [hv] at this
          exact Option.some_injective _ this.symm
        have hm0 : st.mappings[bi]? = some none := by
          have hsome : st.mappings[bi]? = some st.mappings[bi] :=
            List.getElem?_eq_getElem hbiM
          have hlink := inv.link bi a st.mappings[bi] ha hsome
          rw [hta] at hlink
          have hnone : st.mappings[bi] = none := by
            cases hmb : st.mappings[bi] with
            | none => rfl
            | some m => rw [hmb] at hlink; simp at hlink
          rw [hsome, hnone]
        have hgetm0 : st.mappings[bi] = none := by
          have := List.getElem?_eq_getElem hbiM
          rw [hm0] at this
          exact Option.some_injective _ this.symm
        have hkN : k < N := by
          by_contra hge
          have hcnt := inv.count
          have hminN : min k N = N := by omega
          rw [hminN] at hcnt
          have hall := List.countP_eq_length.mp (by rw [hcnt, inv.lenM])
          have hmem : (none : Option RebuildTarget) ∈ st.mappings := by
            rw [← hgetm0]
            exact List.getElem_mem hbiM
          have := hall none hmem
          simp at this
        refine { lenA := ?_, lenM := ?_, lenV := ?_, idx := ?_, rbound := ?_,
                 link := ?_, sound := ?_, inj := ?_, count := ?_ }
        · simpa using inv.lenA
        · simpa using inv.lenM
        · simpa using inv.lenV
        · intro i a3 h2
          rw [List.getElem?_set] at h2
          by_cases hbi : bi = i
          · subst hbi
            rw [if_pos rfl, if_pos hbiA] at h2
            obtain rfl := Option.some_injective _ h2
            rfl
          · rw [if_neg hbi] at h2
            exact inv.idx i a3 h2
        · intro a3 h2
          rcases List.mem_or_eq_of_mem_set h2 with h3 | rfl
          · exact inv.rbound a3 h3
          · exact inv.rbound a hamem
        · intro i a3 m2 h2 hm2
          rw [List.getElem?_set] at h2
          rw [List.getElem?_set] at hm2
          by_cases hbi : bi = i
          · subst hbi
            rw [if_pos rfl, if_pos hbiA] at h2
            rw [if_pos rfl, if_pos hbiM] at hm2
            obtain rfl := Option.some_injective _ h2
            obtain rfl := Option.some_injective _ hm2
            rfl
          · rw [if_neg hbi] at h2
            rw [if_neg hbi] at hm2
            exact inv.link i a3 m2 h2 hm2
        · intro i m hm
          rw [List.getElem?_set] at hm
          by_cases hbi : bi = i
          · subst hbi
            rw [if_pos rfl, if_pos hbiM] at hm
            have hmeq := Option.some_injective _ hm
            obtain rfl := Option.some_injective _ hmeq
            refine ⟨k, hk, Nat.lt_succ_self k, rfl, rfl, rfl, rfl, rfl, ?_⟩
            refine ⟨{ v with color := t.color }, ?_, rfl⟩
            rw [List.getElem?_set, if_pos rfl, if_pos hbiV]
          · rw [if_neg hbi] at hm
            obtain ⟨j, hj, hjk, hd, hx, hy, hz, hrub, v2, hv2, hc2⟩ :=
              inv.sound i m hm
            refine ⟨j, hj, Nat.lt_succ_of_lt hjk, hd, hx, hy, hz, hrub,
                    v2, ?_, hc2⟩
            rw [List.getElem?_set, if_neg hbi]
            exact hv2
        · intro i1 i2 m1 m2 h1 h2 hd
          rw [List.getElem?_set] at h1
          rw [List.getElem?_set] at h2
          by_cases hb1 : bi = i1 <;> by_cases hb2 : bi = i2
          · omega
          · exfalso
            subst hb1
            rw [if_pos rfl, if_pos hbiM] at h1
            rw [if_neg hb2] at h2
            have hm1 := Option.some_injective _ h1
            obtain rfl := Option.some_injective _ hm1
            obtain ⟨j, hj, hjk, hd2, _⟩ := inv.sound i2 m2 h2
            rw [hd2] at hd
            have hL : (all.length : ℚ) ≠ 0 := by
              have h0 : 0 < all.length := lt_of_le_of_lt (Nat.zero_le k) hk
              exact_mod_cast Nat.pos_iff_ne_zero.mp h0
            field_simp at hd
            omega
          · exfalso
            subst hb2
            rw [if_pos rfl, if_pos hbiM] at h2
            rw [if_neg hb1] at h1
            have hm2 := Option.some_injective _ h2
            obtain rfl := Option.some_injective _ hm2
            obtain ⟨j, hj, hjk, hd1, _⟩ := inv.sound i1 m1 h1
            rw [hd1] at hd
            have hL : (all.length : ℚ) ≠ 0 := by
              have h0 : 0 < all.length := lt_of_le_of_lt (Nat.zero_le k) hk
              exact_mod_cast Nat.pos_iff_ne_zero.mp h0
            field_simp at hd
            omega
          · rw [if_neg hb1] at h1
            rw [if_neg hb2] at h2
            exact inv.inj i1 i2 m1 m2 h1 h2 hd
        · rw [List.countP_set _ _ _ _ hbiM, hgetm0]
          simp only [Option.isSome_none, Option.isSome_some, if_true,
            Bool.false_eq_true, if_false, Nat.sub_zero]
          rw [inv.count]
          omega
      · rename_i hvnone
        exfalso
        rw [hai] at hvnone
        have := List.getElem?_eq_getElem hbiV
        rw [hvnone] at this
        cases this

lemma assignInv_init (all : List VoxelData) (voxels : List SimulationVoxel) :
    AssignInv all voxels.length 0 (initAssign voxels) := by
  refine { lenA := ?_, lenM := ?_, lenV := ?_, idx := ?_, rbound := ?_,
           link := ?_, sound := ?_, inj := ?_, count := ?_ }
  · simp [initAssign]
  · simp [initAssign]
  · rfl
  · intro i a ha
    simp only [initAssign, List.getElem?_map, List.getElem?_enum] at ha
    rcases hx : voxels[i]? with _ | v
    · rw [hx] at ha
      simp at ha
    · rw [hx] at ha
      simp only [Option.map_some'] at ha
      obtain rfl := Option.some_injective _ ha
      rfl
  · intro a ha
    simp only [initAssign, List.mem_map] at ha
    obtain ⟨p, _hp, rfl⟩ := ha
    exact ⟨colorR_nonneg _, colorR_le_one _⟩
  · intro i a m ha hm
    simp only [initAssign, List.getElem?_replicate] at hm
    have hmn : m = none := by
      by_cases hi : i < voxels.length
      · rw [if_pos hi] at hm
        exact (Option.some_injective _ hm).symm
      · rw [if_neg hi] at hm
        cases hm
    subst hmn
    simp only [initAssign, List.getElem?_map, List.getElem?_enum] at ha
    rcases hx : voxels[i]? with _ | v
    · rw [hx] at ha
      simp at ha
    · rw [hx] at ha
      simp only [Option.map_some'] at ha
      obtain rfl := Option.some_injective _ ha
      rfl
  · intro i m hm
    exfalso
    simp only [initAssign, List.getElem?_replicate] at hm
    by_cases hi : i < voxels.length
    · rw [if_pos hi] at hm
      cases Option.some_injective _ hm
    · rw [if_neg hi] at hm
      cases hm
  · intro i1 i2 m1 m2 h1 _h2 _hd
    exfalso
    simp only [initAssign, List.getElem?_replicate] at h1
    by_cases hi : i1 < voxels.length
    · rw [if_pos hi] at h1
      cases Option.some_injective _ h1
    · rw [if_neg hi] at h1
      cases h1
  · have hz : (List.replicate voxels.length
        (none : Option RebuildTarget)).countP (fun m => m.isSome) = 0 := by
      rw [List.countP_eq_zero]
      intro m hm
      rw [List.eq_of_mem_replicate hm]
      simp
    simp [initAssign, hz]

lemma assignLoop_inv (all : List VoxelData) (N : ℕ) :
    ∀ (l : List VoxelData) (k : ℕ), all.drop k = l →
      ∀ st, AssignInv all N k st →
      AssignInv all N (k + l.length)
        (assignLoop all.length (List.enumFrom k l) st) := by
  intro l
  induction l with
  | nil =>
    intro k _hdrop st hinv
    simpa using hinv
  | cons t rest ih =>
    intro k hdrop st hinv
    have hk : k < all.length := by
      by_contra hge
      have hnil : all.drop k = [] := List.drop_eq_nil_of_le (by omega)
      rw [hnil] at hdrop
      cases hdrop
    have hcons := List.drop_eq_getElem_cons hk
    rw [hdrop] at hcons
    injection hcons with h1 h2
    have hstep : AssignInv all N (k + 1) (assignStep all.length k t st) := by
      rw [h1]
      exact assignStep_inv all N k st hinv hk
    have hrec := ih (k + 1) h2.symm (assignStep all.length k t st) hstep
    have hlen : k + (t :: rest).length = k + 1 + rest.length := by
      simp [List.length_cons]
      omega
    rw [hlen]
    exact hrec

/-- The assignment phase of `rebuild` establishes the loop invariant with
every sorted target processed. -/
lemma runAssign_inv (voxels : List SimulationVoxel) (tm : List VoxelData) :
    AssignInv (sortedTargetsOf tm) voxels.length (sortedTargetsOf tm).length
      (runAssign voxels tm) := by
  have h := assignLoop_inv (sortedTargetsOf tm) voxels.length
    (sortedTargetsOf tm) 0 rfl (initAssign voxels)
    (assignInv_init (sortedTargetsOf tm) voxels)
  simpa [runAssign] using h

/-! ### Facts about the sorted target list and the shape of `rebuild` -/

lemma sortedTargetsOf_length (tm : List VoxelData) :
    (sortedTargetsOf tm).length = tm.length :=
  (List.mergeSort_perm tm _).length_eq

lemma sortedTargetsOf_perm (tm : List VoxelData) :
    (sortedTargetsOf tm).Perm tm :=
  List.mergeSort_perm tm _

lemma sortedTargetsOf_sorted (tm : List VoxelData) :
    List.Pairwise (fun a b : VoxelData => a.y ≤ b.y) (sortedTargetsOf tm) := by
  have h := @List.sorted_mergeSort VoxelData
    (fun a b : VoxelData => decide (a.y ≤ b.y))
    (fun a b c hab hbc => by
      simp only [decide_eq_true_eq] at hab hbc ⊢
      exact le_trans hab hbc)
    (fun a b => by
      simp only [Bool.or_eq_true, decide_eq_true_eq]
      exact le_total a.y b.y)
    tm
  have h2 : List.Pairwise
      (fun a b : VoxelData => decide (a.y ≤ b.y) = true)
      (sortedTargetsOf tm) := h
  exact h2.imp fun hab => by simpa using hab

/-- The shape of the engine after `rebuild`: there is a (possibly grown)
store `V` of size `max (old store size) (target count)` on which the greedy
assignment ran; voxels and targets of the result are the assignment's
output, the unmatched slots filled with `rubbleTarget`. -/
lemma rebuild_components (tm : List VoxelData) (prog : Bool) (now : ℚ)
    (e : Engine) :
    ∃ V : List SimulationVoxel,
      V.length = max e.voxels.length tm.length ∧
      (rebuild tm prog now e).voxels = (runAssign V tm).voxels ∧
      (rebuild tm prog now e).rebuildTargets =
        (runAssign V tm).mappings.map (fun m => m.getD rubbleTarget) ∧
      (rebuild tm prog now e).state = AppState.REBUILDING ∧
      (rebuild tm prog now e).isProgressive = prog := by
  by_cases hlt : e.voxels.length < tm.length
  · refine ⟨(createVoxels tm e).voxels, ?_, ?_, ?_, ?_, ?_⟩
    · have hcl : (createVoxels tm e).voxels.length = tm.length := by
        simp [createVoxels]
      rw [hcl]
      omega
    · simp only [rebuild]
      rw [if_pos hlt]
      rfl
    · simp only [rebuild]
      rw [if_pos hlt]
      rfl
    · simp only [rebuild]
      rw [if_pos hlt]
      rfl
    · simp only [rebuild]
      rw [if_pos hlt]
      rfl
  · refine ⟨e.voxels, ?_, ?_, ?_, ?_, ?_⟩
    · omega
    · simp only [rebuild]
      rw [if_neg hlt]
    · simp only [rebuild]
      rw [if_neg hlt]
    · simp only [rebuild]
      rw [if_neg hlt]
    · simp only [rebuild]
      rw [if_neg hlt]

/-- A non-rubble entry of the final target list is a recorded mapping. -/
lemma targets_getElem_some (V : List SimulationVoxel) (tm : List VoxelData)
    (i : ℕ) (t : RebuildTarget)
    (ht : ((runAssign V tm).mappings.map
      (fun m => m.getD rubbleTarget))[i]? = some t)
    (hnr : t.isRubble = false) :
    (runAssign V tm).mappings[i]? = some (some t) := by
  rw [List.getElem?_map] at ht
  rcases hm : (runAssign V tm).mappings[i]? with _ | m
  · rw [hm] at ht
    cases ht
  · rw [hm] at ht
    simp only [Option.map_some'] at ht
    obtain rfl := Option.some_injective _ ht
    cases m with
    | none => simp [rubbleTarget] at hnr
    | some m2 => rfl

/-- The loop invariant, read off at a recorded mapping of the finished
assignment. -/
lemma runAssign_sound_at (V : List SimulationVoxel) (tm : List VoxelData)
    (i : ℕ) (m : RebuildTarget)
    (hm : (runAssign V tm).mappings[i]? = some (some m)) :
    ∃ j, ∃ hj : j < (sortedTargetsOf tm).length,
      m.delay = (j : ℚ) / ((sortedTargetsOf tm).length : ℚ) ∧
      m.x = ((sortedTargetsOf tm).get ⟨j, hj⟩).x ∧
      m.y = ((sortedTargetsOf tm).get ⟨j, hj⟩).y ∧
      m.z = ((sortedTargetsOf tm).get ⟨j, hj⟩).z ∧
      m.isRubble = false ∧
      ∃ v, (runAssign V tm).voxels[i]? = some v ∧
        v.color = ((sortedTargetsOf tm).get ⟨j, hj⟩).color := by
  obtain ⟨j, hj, _, hd, hx, hy, hz, hrub, hv⟩ :=
    (runAssign_inv V tm).sound i m hm
  exact ⟨j, hj, hd, hx, hy, hz, hrub, hv⟩

/-! ### C2: delay bounds -/

/-- Claim C2, amended: after `rebuild`, every non-rubble target's delay lies
in `[0,1]`, while every rubble target's delay is exactly `2` — beyond the
maximum unlock threshold `1`, so no progress value `p ≤ 1` can unlock it;
after `loadInitialModel` every target is non-rubble with delay `0`. -/
theorem rebuild_delay_bounds (e : Engine) (tm : List VoxelData) (prog : Bool)
    (now : ℚ) (data : List VoxelData) :
    (∀ t ∈ (rebuild tm prog now e).rebuildTargets,
       (t.isRubble = false → 0 ≤ t.delay ∧ t.delay ≤ 1) ∧
       (t.isRubble = true → t.delay = 2 ∧ ∀ p : ℚ, p ≤ 1 → ¬(t.delay ≤ p))) ∧
    (∀ t ∈ (loadInitialModel data e).rebuildTargets,
       t.isRubble = false ∧ t.delay = 0) := by
  obtain ⟨V, hVlen, hvox, htar, _, _⟩ := rebuild_components tm prog now e
  constructor
  · intro t ht
    rw [htar] at ht
    rw [List.mem_map] at ht
    obtain ⟨m, hmem, rfl⟩ := ht
    cases m with
    | none =>
      constructor
      · intro h
        simp [rubbleTarget] at h
      · intro _
        refine ⟨rfl, ?_⟩
        intro p hp
        show ¬(rubbleTarget.delay ≤ p)
        rw [rubbleTarget]
        intro hle
        simp only at hle
        linarith
    | some m2 =>
      obtain ⟨i, hi, hEq⟩ := List.mem_iff_getElem.mp hmem
      have hm2 : (runAssign V tm).mappings[i]? = some (some m2) := by
        rw [List.getElem?_eq_getElem hi, hEq]
      obtain ⟨j, hj, hd, _, _, _, hrub, _⟩ := runAssign_sound_at V tm i m2 hm2
      constructor
      · intro _
        show 0 ≤ m2.delay ∧ m2.delay ≤ 1
        have hLpos : (0 : ℚ) < ((sortedTargetsOf tm).length : ℚ) := by
          exact_mod_cast lt_of_le_of_lt (Nat.zero_le j) hj
        constructor
        · rw [hd]
          positivity
        · rw [hd, div_le_one hLpos]
          exact_mod_cast le_of_lt hj
      · intro h
        exact absurd h (by simp [hrub])
  · intro t ht
    have heq : (loadInitialModel data e).rebuildTargets =
        data.map fun v =>
          { x := v.x, y := v.y, z := v.z, delay := 0,
            isRubble := false } := rfl
    rw [heq, List.mem_map] at ht
    obtain ⟨v, _, rfl⟩ := ht
    exact ⟨rfl, rfl⟩

/-! ### C7: store growth and rubble count -/

/-- Claim C7: `rebuild` grows the store exactly to the target count when the
target model is larger, and never shrinks it (the final store size is the
maximum of the old size and the target count); the target table always
matches the store size, and exactly the excess `old size − target count`
slots are marked rubble. -/
theorem rebuild_store_growth (e : Engine) (tm : List VoxelData) (prog : Bool)
    (now : ℚ) :
    (rebuild tm prog now e).voxels.length = max e.voxels.length tm.length ∧
    (rebuild tm prog now e).rebuildTargets.length =
      (rebuild tm prog now e).voxels.length ∧
    (rebuild tm prog now e).rebuildTargets.countP (fun t => t.isRubble) =
      e.voxels.length - tm.length := by
  obtain ⟨V, hVlen, hvox, htar, _, _⟩ := rebuild_components tm prog now e
  have inv := runAssign_inv V tm
  have hL := sortedTargetsOf_length tm
  refine ⟨?_, ?_, ?_⟩
  · rw [hvox, inv.lenV, hVlen]
  · rw [htar, hvox, List.length_map, inv.lenM, inv.lenV]
  · rw [htar, List.countP_map]
    have hnorub : ∀ m2 : RebuildTarget,
        some m2 ∈ (runAssign V tm).mappings → m2.isRubble = false := by
      intro m2 hmem
      obtain ⟨i, hi, hEq⟩ := List.mem_iff_getElem.mp hmem
      have hm2 : (runAssign V tm).mappings[i]? = some (some m2) := by
        rw [List.getElem?_eq_getElem hi, hEq]
      obtain ⟨j, hj, hd, _, _, _, hrub, _⟩ :=
        runAssign_sound_at V tm i m2 hm2
      exact hrub
    have key : ∀ L : List (Option RebuildTarget),
        (∀ m2 : RebuildTarget, some m2 ∈ L → m2.isRubble = false) →
        L.countP ((fun t => t.isRubble) ∘ (fun m => m.getD rubbleTarget)) +
          L.countP (fun m => m.isSome) = L.length := by
      intro L
      induction L with
      | nil => intro _; rfl
      | cons m rest ih =>
        intro hL
        have hrest := ih fun m2 hm2 => hL m2 (List.mem_cons_of_mem _ hm2)
        rw [List.countP_cons, List.countP_cons]
        cases m with
        | none =>
          have hp : ((fun t => t.isRubble) ∘ (fun m => m.getD rubbleTarget))
              (none : Option RebuildTarget) = true := rfl
          rw [hp, if_pos rfl]
          rw [show ((none : Option RebuildTarget).isSome) = false from rfl]
          rw [if_neg (by simp), List.length_cons]
          omega
        | some m2 =>
          have hr2 := hL m2 (List.mem_cons_self _ _)
          have hp : ((fun t => t.isRubble) ∘ (fun m => m.getD rubbleTarget))
              (some m2) = false := by
            simp [Function.comp, hr2]
          rw [hp]
          rw [if_neg (by simp)]
          rw [show ((some m2 : Option RebuildTarget).isSome) = true from rfl]
          rw [if_pos rfl, List.length_cons]
          omega
    have hkey := key (runAssign V tm).mappings hnorub
    have hcnt := inv.count
    rw [inv.lenM] at hkey
    rw [hL] at hcnt
    omega

/-! ### C9: delay monotone in target height -/

/-- Claim C9: among the non-rubble targets produced by a `rebuild`, unlock
delays are monotone in the target's height: a target strictly lower than
another never has the larger delay. -/
theorem rebuild_delay_monotone (e : Engine) (tm : List VoxelData)
    (prog : Bool) (now : ℚ) :
    ∀ (i1 i2 : ℕ) (t1 t2 : RebuildTarget),
      (rebuild tm prog now e).rebuildTargets[i1]? = some t1 →
      (rebuild tm prog now e).rebuildTargets[i2]? = some t2 →
      t1.isRubble = false → t2.isRubble = false →
      t1.y < t2.y → t1.delay ≤ t2.delay := by
  obtain ⟨V, hVlen, hvox, htar, _, _⟩ := rebuild_components tm prog now e
  intro i1 i2 t1 t2 h1 h2 hr1 hr2 hy
  rw [htar] at h1 h2
  have hm1 := targets_getElem_some V tm i1 t1 h1 hr1
  have hm2 := targets_getElem_some V tm i2 t2 h2 hr2
  obtain ⟨j1, hj1, hd1, _, hy1, _, _, _⟩ := runAssign_sound_at V tm i1 t1 hm1
  obtain ⟨j2, hj2, hd2, _, hy2, _, _, _⟩ := runAssign_sound_at V tm i2 t2 hm2
  have hsorted := sortedTargetsOf_sorted tm
  rw [List.pairwise_iff_getElem] at hsorted
  have hjj : j1 < j2 := by
    by_contra hle
    push_neg at hle
    rcases Nat.eq_or_lt_of_le hle with heq | hlt2
    · subst heq
      rw [hy1, hy2] at hy
      exact lt_irrefl _ hy
    · have := hsorted j2 j1 hj2 hj1 hlt2
      rw [hy1, hy2] at hy
      have hgety : ((sortedTargetsOf tm).get ⟨j2, hj2⟩).y ≤
          ((sortedTargetsOf tm).get ⟨j1, hj1⟩).y := this
      linarith
  rw [hd1, hd2]
  have hLpos : (0 : ℚ) < ((sortedTargetsOf tm).length : ℚ) := by
    exact_mod_cast lt_of_le_of_lt (Nat.zero_le j1) hj1
  have hj12 : (j1 : ℚ) ≤ (j2 : ℚ) := by exact_mod_cast le_of_lt hjj
  exact (div_le_div_iff_of_pos_right hLpos).mpr hj12

/-! ### C1: the equal-length matching is a bijection onto the ranks -/

/-- Claim C1: the assignment never maps two slots to the same target rank
(delays, which encode the rank as `rank / count`, are injective over the
non-rubble entries); and when the store and the target list have the same
length `N`, all `N` slots are matched, none is rubble, and every rank
`j < N` (that is, every delay `j / N`) is carried by exactly one slot. -/
theorem rebuild_matching (e : Engine) (tm : List VoxelData) (prog : Bool)
    (now : ℚ) :
    (∀ (i1 i2 : ℕ) (t1 t2 : RebuildTarget),
       (rebuild tm prog now e).rebuildTargets[i1]? = some t1 →
       (rebuild tm prog now e).rebuildTargets[i2]? = some t2 →
       t1.isRubble = false → t2.isRubble = false →
       t1.delay = t2.delay → i1 = i2) ∧
    (e.voxels.length = tm.length →
       (rebuild tm prog now e).rebuildTargets.length = tm.length ∧
       (∀ t ∈ (rebuild tm prog now e).rebuildTargets, t.isRubble = false) ∧
       ∀ j : ℕ, j < tm.length →
         ∃! i : ℕ, ∃ t : RebuildTarget,
           (rebuild tm prog now e).rebuildTargets[i]? = some t ∧
           t.delay = (j : ℚ) / (tm.length : ℚ)) := by
  obtain ⟨V, hVlen, hvox, htar, _, _⟩ := rebuild_components tm prog now e
  have inv := runAssign_inv V tm
  have hL := sortedTargetsOf_length tm
  constructor
  · intro i1 i2 t1 t2 h1 h2 hr1 hr2 hdel
    rw [htar] at h1 h2
    exact inv.inj i1 i2 t1 t2 (targets_getElem_some V tm i1 t1 h1 hr1)
      (targets_getElem_some V tm i2 t2 h2 hr2) hdel
  · intro heq
    have hN : V.length = tm.length := by omega
    have hMlen : (runAssign V tm).mappings.length = tm.length := by
      rw [inv.lenM, hN]
    have hcnt := inv.count
    rw [hL, hN] at hcnt
    have hfull : (runAssign V tm).mappings.countP (fun m => m.isSome) =
        (runAssign V tm).mappings.length := by
      rw [hMlen, hcnt]
      omega
    have hall := List.countP_eq_length.mp hfull
    refine ⟨?_, ?_, ?_⟩
    · rw [htar, List.length_map, hMlen]
    · intro t ht
      rw [htar, List.mem_map] at ht
      obtain ⟨m, hmem, rfl⟩ := ht
      have hsome := hall m hmem
      obtain ⟨m2, rfl⟩ := Option.isSome_iff_exists.mp hsome
      obtain ⟨i, hi, hEq⟩ := List.mem_iff_getElem.mp hmem
      have hm2 : (runAssign V tm).mappings[i]? = some (some m2) := by
        rw [List.getElem?_eq_getElem hi, hEq]
      obtain ⟨j, hj, _, _, _, _, hrub, _⟩ := runAssign_sound_at V tm i m2 hm2
      simpa using hrub
    · intro j hj
      have hchoice : ∀ i : Fin tm.length, ∃ jm : Fin tm.length,
          ∃ m : RebuildTarget,
            (runAssign V tm).mappings[i.1]? = some (some m) ∧
            m.delay = (jm.1 : ℚ) / (tm.length : ℚ) := by
        intro i
        have hi : i.1 < (runAssign V tm).mappings.length := by
          rw [hMlen]
          exact i.2
        have hsm : (runAssign V tm).mappings[i.1]? =
            some (runAssign V tm).mappings[i.1] := List.getElem?_eq_getElem hi
        have hs := hall _ (List.getElem_mem hi)
        obtain ⟨m, hm⟩ := Option.isSome_iff_exists.mp hs
        rw [hm] at hsm
        obtain ⟨jm, hjm, hd, _⟩ := runAssign_sound_at V tm i.1 m hsm
        refine ⟨⟨jm, by omega⟩, m, hsm, ?_⟩
        show m.delay = (jm : ℚ) / (tm.length : ℚ)
        rw [hd]
        congr 1
        exact_mod_cast hL
      choose f fm hfm hfd using hchoice
      have hinj : Function.Injective f := by
        intro i1 i2 hfi
        have hd1 := hfd i1
        have hd2 := hfd i2
        rw [hfi] at hd1
        have heqd : (fm i1).delay = (fm i2).delay := by rw [hd1, hd2]
        have hii := inv.inj i1.1 i2.1 (fm i1) (fm i2) (hfm i1) (hfm i2) heqd
        exact Fin.ext hii
      have hsurj := Finite.injective_iff_surjective.mp hinj
      obtain ⟨i, hfi⟩ := hsurj ⟨j, hj⟩
      refine ⟨i.1, ⟨fm i, ?_, ?_⟩, ?_⟩
      · rw [htar, List.getElem?_map, hfm i]
        rfl
      · rw [hfd i, hfi]
      · intro i2 hex
        obtain ⟨t2, ht2, hd2⟩ := hex
        rw [htar] at ht2
        rw [List.getElem?_map] at ht2
        rcases hm : (runAssign V tm).mappings[i2]? with _ | m
        · rw [hm] at ht2
          cases ht2
        · rw [hm] at ht2
          simp only [Option.map_some'] at ht2
          obtain rfl := Option.some_injective _ ht2
          cases m with
          | none =>
            exfalso
            have hd2q : (2 : ℚ) = (j : ℚ) / (tm.length : ℚ) := hd2
            have hpos : (0 : ℚ) < (tm.length : ℚ) := by
              exact_mod_cast lt_of_le_of_lt (Nat.zero_le j) hj
            have hlt1 : (j : ℚ) / (tm.length : ℚ) < 1 := by
              rw [div_lt_one hpos]
              exact_mod_cast hj
            linarith
          | some m2 =>
            have hdm : m2.delay = (j : ℚ) / (tm.length : ℚ) := hd2
            have hdfm : (fm i).delay = (j : ℚ) / (tm.length : ℚ) := by
              rw [hfd i, hfi]
            exact inv.inj i2 i.1 m2 (fm i) hm (hfm i) (by rw [hdm, hdfm])

/-! ### C10: colours snap at assignment time -/

/-- Claim C10: immediately after `rebuild` returns — before any frame has
run — every slot carrying a non-rubble target holds a voxel whose colour
already equals the colour of the target voxel it was matched to (the target
with the same destination coordinates). -/
theorem rebuild_snaps_colors (e : Engine) (tm : List VoxelData) (prog : Bool)
    (now : ℚ) :
    ∀ (i : ℕ) (t : RebuildTarget),
      (rebuild tm prog now e).rebuildTargets[i]? = some t →
      t.isRubble = false →
      ∃ v ∈ tm, t.x = v.x ∧ t.y = v.y ∧ t.z = v.z ∧
        ∃ sv : SimulationVoxel,
          (rebuild tm prog now e).voxels[i]? = some sv ∧
          sv.color = v.color := by
  obtain ⟨V, hVlen, hvox, htar, _, _⟩ := rebuild_components tm prog now e
  intro i t ht hnr
  rw [htar] at ht
  have hm := targets_getElem_some V tm i t ht hnr
  obtain ⟨j, hj, hd, hx, hy, hz, _, sv, hsv, hc⟩ :=
    runAssign_sound_at V tm i t hm
  refine ⟨(sortedTargetsOf tm).get ⟨j, hj⟩, ?_, hx, hy, hz, sv, ?_, hc⟩
  · exact (sortedTargetsOf_perm tm).mem_iff.mp (List.get_mem _ _ _)
  · rw [hvox]
    exact hsv

/-! ### Concrete evaluations of `rebuild` for witnesses -/

lemma sortedTargetsOf_singleton (a : VoxelData) : sortedTargetsOf [a] = [a] :=
  List.perm_singleton.mp (sortedTargetsOf_perm [a])

lemma sortedTargetsOf_pair (a b : VoxelData) (hab : a.y < b.y) :
    sortedTargetsOf [a, b] = [a, b] := by
  have hp := sortedTargetsOf_perm [a, b]
  have hs := sortedTargetsOf_sorted [a, b]
  have hlen : (sortedTargetsOf [a, b]).length = 2 := by
    rw [sortedTargetsOf_length]
    rfl
  have hne : a ≠ b := by
    intro h
    rw [h] at hab
    exact lt_irrefl _ hab
  have hnd : (sortedTargetsOf [a, b]).Nodup := by
    rw [hp.nodup_iff]
    simp [hne]
  obtain ⟨x, y2, hl⟩ : ∃ x y2, sortedTargetsOf [a, b] = [x, y2] := by
    rcases hsl : sortedTargetsOf [a, b] with _ | ⟨x, l2⟩
    · rw [hsl] at hlen
      cases hlen
    rcases l2 with _ | ⟨y2, l3⟩
    · rw [hsl] at hlen
      simp at hlen
    rcases l3 with _ | ⟨z, l4⟩
    · exact ⟨x, y2, rfl⟩
    · rw [hsl] at hlen
      simp at hlen
  rw [hl] at hp hs hnd
  rw [hl]
  have hx : x ∈ ([a, b] : List VoxelData) := hp.mem_iff.mp (by simp)
  have hy : y2 ∈ ([a, b] : List VoxelData) := hp.mem_iff.mp (by simp)
  have hxy : x.y ≤ y2.y := by
    rw [List.pairwise_cons] at hs
    exact hs.1 y2 (by simp)
  simp only [List.mem_cons, List.not_mem_nil, or_false] at hx hy
  rcases hx with rfl | rfl <;> rcases hy with rfl | rfl
  · simp at hnd
  · rfl
  · exact absurd hxy (not_le.mpr hab)
  · simp at hnd

/-- Full evaluation of the two-target rebuild used by the witnesses: the red
voxel is claimed by the red ground target (rank 0, delay 0), the black voxel
by the black upper target (rank 1, delay 1/2), and the snapped colours are
unchanged. -/
lemma cxPair_eval :
    (rebuild [tLow, tHigh] false 0 cxPairEngine).rebuildTargets =
      [cxTgtA, cxTgtB] ∧
    (rebuild [tLow, tHigh] false 0 cxPairEngine).voxels.map
      (fun v => v.color) = [0xff0000, 0] := by
  have hsort := sortedTargetsOf_pair tLow tHigh (by norm_num [tLow, tHigh])
  simp only [tLow, tHigh] at hsort
  constructor <;>
    norm_num [rebuild, runAssign, hsort, initAssign, assignLoop, assignStep,
      scanBest, colorR, cxPairEngine, vRed, vBlack, tLow, tHigh, cxTgtA,
      cxTgtB, rubbleTarget, FLOOR_Y, createVoxels, List.enum, List.enumFrom,
      List.replicate, List.set]

/-- Full evaluation of the shrinking rebuild (two voxels, one target): the
black voxel is claimed, the red voxel becomes rubble with delay `2`. -/
lemma cxOne_eval :
    (rebuild [tOne] false 0 cxPairEngine).rebuildTargets =
      [rubbleTarget,
       { x := 5, y := 0, z := 0, delay := 0, isRubble := false }] := by
  have hsort := sortedTargetsOf_singleton tOne
  simp only [tOne] at hsort
  norm_num [rebuild, runAssign, hsort, initAssign, assignLoop, assignStep,
    scanBest, colorR, cxPairEngine, vRed, vBlack, tOne, rubbleTarget,
    FLOOR_Y, createVoxels, List.enum, List.enumFrom, List.replicate,
    List.set]

/-- Claim C2 counterexample: after a rebuild with more voxels than targets,
the rubble slot carries delay `2`, which lies outside `[0,1]` — so it is not
the case that every `RebuildTarget.delay` lies in `[0,1]`. -/
theorem rebuild_delay_bounds_cx :
    ((rebuild [tOne] false 0 cxPairEngine).rebuildTargets.map
      (fun t => (t.delay, t.isRubble))) = [(2, true), (0, false)] ∧
    ¬((2 : ℚ) ≤ 1) := by
  constructor
  · rw [cxOne_eval]
    norm_num [rubbleTarget]
  · norm_num

/-- Witness for the amended C2: the rubble slot of a concrete shrinking
rebuild has delay `2` and is not unlocked by the progress value `9/10`. -/
theorem rebuild_delay_bounds_witness :
    rubbleTarget ∈ (rebuild [tOne] false 0 cxPairEngine).rebuildTargets ∧
    rubbleTarget.delay = 2 ∧ ¬(rubbleTarget.delay ≤ (9 : ℚ) / 10) := by
  have hmem : rubbleTarget ∈
      (rebuild [tOne] false 0 cxPairEngine).rebuildTargets := by
    rw [cxOne_eval]
    exact List.mem_cons_self _ _
  have h := ((rebuild_delay_bounds cxPairEngine [tOne] false 0 []).1
    rubbleTarget hmem).2 rfl
  exact ⟨hmem, h.1, h.2 (9 / 10) (by norm_num)⟩

/-- Witness for C1 at the two-voxel, two-target rebuild: both slots are
matched and none is rubble. -/
theorem rebuild_matching_witness :
    cxPairEngine.voxels.length = ([tLow, tHigh] : List VoxelData).length ∧
    (rebuild [tLow, tHigh] false 0 cxPairEngine).rebuildTargets.length = 2 ∧
    ((rebuild [tLow, tHigh] false 0 cxPairEngine).rebuildTargets.map
      (fun t => t.isRubble)) = [false, false] := by
  have h := (rebuild_matching cxPairEngine [tLow, tHigh] false 0).2 rfl
  refine ⟨rfl, h.1, ?_⟩
  rw [cxPair_eval.1]
  rfl

/-- Witness for C9 at the two-target rebuild: the ground target's delay `0`
is below the upper target's delay `1/2`. -/
theorem rebuild_delay_monotone_witness :
    (rebuild [tLow, tHigh] false 0 cxPairEngine).rebuildTargets[0]? =
      some cxTgtA ∧
    (rebuild [tLow, tHigh] false 0 cxPairEngine).rebuildTargets[1]? =
      some cxTgtB ∧
    cxTgtA.y < cxTgtB.y ∧ cxTgtA.delay ≤ cxTgtB.delay := by
  have h0 : (rebuild [tLow, tHigh] false 0 cxPairEngine).rebuildTargets[0]? =
      some cxTgtA := by
    rw [cxPair_eval.1]
    rfl
  have h1 : (rebuild [tLow, tHigh] false 0 cxPairEngine).rebuildTargets[1]? =
      some cxTgtB := by
    rw [cxPair_eval.1]
    rfl
  refine ⟨h0, h1, by norm_num [cxTgtA, cxTgtB], ?_⟩
  exact rebuild_delay_monotone cxPairEngine [tLow, tHigh] false 0 0 1 cxTgtA
    cxTgtB h0 h1 rfl rfl (by norm_num [cxTgtA, cxTgtB])

/-- Witness for C10: straight after the two-target rebuild, slot 0 carries
the red target and its voxel's colour is already the target's red. -/
theorem rebuild_snaps_colors_witness :
    (rebuild [tLow, tHigh] false 0 cxPairEngine).rebuildTargets[0]? =
      some cxTgtA ∧
    ((rebuild [tLow, tHigh] false 0 cxPairEngine).voxels[0]?.map
      fun v => v.color) = some 0xff0000 := by
  have h0 : (rebuild [tLow, tHigh] false 0 cxPairEngine).rebuildTargets[0]? =
      some cxTgtA := by
    rw [cxPair_eval.1]
    rfl
  obtain ⟨v, hvmem, hx, hy, hz, sv, hsv, hc⟩ :=
    rebuild_snaps_colors cxPairEngine [tLow, tHigh] false 0 0 cxTgtA h0 rfl
  refine ⟨h0, ?_⟩
  rw [hsv, Option.map_some', hc]
  rcases List.mem_cons.mp hvmem with rfl | hv2
  · rfl
  · exfalso
    rcases List.mem_cons.mp hv2 with rfl | hv3
    · norm_num [cxTgtA, tHigh] at hx
    · cases hv3

end Voxeldoro
